import Mathlib

/-!
Verification of the hulo-npm release-packaging pipeline.

The development shallowly embeds the three scripts of the repository:
the archive fetcher (download orchestration), the archive installer
(`scripts/postprepare.ts`), and the checksum-manifest parser shared by
both.  JavaScript string primitives (`trim`, `split(/\s+/)`,
`split('\n')`, `Array.join(' ')`) are modelled as executable functions
on `List Char`, and the filesystem effects of the installer's
per-entry processing are modelled as operations on a finite file tree.
-/

/-- Whitespace class of the JavaScript `\s` regex character class and of
`String.prototype.trim`, restricted to the characters that can occur in
the manifests handled here. -/
def jsWhitespace (c : Char) : Bool :=
  c = ' ' || c = '\t' || c = '\n' || c = '\r' || c = '\x0b' || c = '\x0c'

/-- JavaScript `str.split(sep)` for a one-character separator: empty
pieces are kept, and the empty string yields one empty piece. -/
def splitOnChar (sep : Char) : List Char → List (List Char)
  | [] => [[]]
  | c :: rest =>
      match splitOnChar sep rest with
      | [] => [[]]
      | p :: ps => if c = sep then [] :: p :: ps else (c :: p) :: ps

/-- JavaScript `str.trim()`: strip whitespace from both ends. -/
def trimChars (cs : List Char) : List Char :=
  ((cs.dropWhile jsWhitespace).reverse.dropWhile jsWhitespace).reverse

/-- Scanner for whitespace-run splitting: `acc` holds the characters of
the current token in reverse. -/
def splitWsAux : List Char → List Char → List (List Char)
  | [], acc => if acc = [] then [] else [acc.reverse]
  | c :: rest, acc =>
      if jsWhitespace c then
        if acc = [] then splitWsAux rest []
        else acc.reverse :: splitWsAux rest []
      else splitWsAux rest (c :: acc)

/-- JavaScript splitting on runs of whitespace, as applied by the
scripts to an already-trimmed string: the list of maximal runs of
non-whitespace characters, in order. -/
def splitWsRuns (cs : List Char) : List (List Char) :=
  splitWsAux cs []

/-- JavaScript `parts.join(' ')`. -/
def joinSpaceChars : List (List Char) → List Char
  | [] => []
  | [t] => t
  | t :: u :: ts => t ++ ' ' :: joinSpaceChars (u :: ts)

/-- One record of the checksum manifest, from `interface ChecksumEntry`
(shared by the fetcher and `scripts/postprepare.ts`). -/
structure ChecksumEntry where
  hash : String
  filename : String
deriving DecidableEq, Repr

/-- The body of the `forEach` loop of `parseChecksums`: a line yields an
entry exactly when its trimmed form is non-empty and splits into at
least two whitespace-delimited tokens; the first token is the hash and
the remaining tokens joined by single spaces are the filename. -/
def lineToEntry (line : List Char) : Option ChecksumEntry :=
  let trimmed := trimChars line
  if trimmed = [] then none
  else
    let parts := splitWsRuns trimmed
    if 2 ≤ parts.length then
      some ⟨String.mk (parts.headD []), String.mk (joinSpaceChars (parts.drop 1))⟩
    else none

/-- Function `parseChecksums` from the fetcher and from `scripts/postprepare.ts`
(the two copies are textually identical): split the manifest on
newlines and collect the entries of the accepted lines. -/
def parseChecksums (content : String) : List ChecksumEntry :=
  (splitOnChar '\n' content.data).filterMap lineToEntry

/-- A line is well-formed when its trimmed form has at least two
whitespace-delimited tokens. -/
def wellFormedLine (line : List Char) : Bool :=
  decide (2 ≤ (splitWsRuns (trimChars line)).length)

/-- The entry a well-formed line produces. -/
def entryOfLine (line : List Char) : ChecksumEntry :=
  ⟨String.mk ((splitWsRuns (trimChars line)).headD []),
    String.mk (joinSpaceChars ((splitWsRuns (trimChars line)).drop 1))⟩

/-- The portion of a manifest line after the hash token: what remains
of the trimmed line once the first token and the whitespace separating
it from the rest are removed.  (Stated from the claim's words, to be
compared with what `parseChecksums` actually returns.) -/
def afterHash (line : List Char) : List Char :=
  ((trimChars line).dropWhile (fun c => !jsWhitespace c)).dropWhile jsWhitespace

theorem lineToEntry_eq (line : List Char) :
    lineToEntry line = if wellFormedLine line then some (entryOfLine line) else none := by
  unfold lineToEntry wellFormedLine entryOfLine
  by_cases h : trimChars line = []
  · simp [h, splitWsRuns, splitWsAux]
  · by_cases h2 : 2 ≤ (splitWsRuns (trimChars line)).length
    · simp [h, h2]
    · simp [h, h2]

theorem filterMap_guard {α β : Type} (p : α → Bool) (f : α → β) (g : α → Option β)
    (hg : ∀ a, g a = if p a then some (f a) else none) :
    ∀ l : List α, l.filterMap g = (l.filter p).map f := by
  intro l
  induction l with
  | nil => simp
  | cons a l ih =>
      by_cases h : p a <;>
        simp [List.filterMap_cons, List.filter_cons, hg a, h, ih]

/-- Structural description of the parser: accepted lines survive in
input order, all others are dropped. -/
theorem parseChecksums_filter (content : String) :
    parseChecksums content
      = ((splitOnChar '\n' content.data).filter wellFormedLine).map entryOfLine :=
  filterMap_guard wellFormedLine entryOfLine lineToEntry lineToEntry_eq _

theorem splitWsAux_ne_nil :
    ∀ (l acc : List Char), ∀ t ∈ splitWsAux l acc, t ≠ [] := by
  intro l
  induction l with
  | nil =>
      intro acc t ht
      by_cases h : acc = []
      · simp [splitWsAux, h] at ht
      · simp [splitWsAux, h] at ht
        simp [ht, h]
  | cons c rest ih =>
      intro acc t ht
      by_cases hw : jsWhitespace c
      · by_cases h : acc = []
        · exact ih [] t (by simpa [splitWsAux, hw, h] using ht)
        · simp [splitWsAux, hw, h] at ht
          rcases ht with ht | ht
          · simp [ht, h]
          · exact ih [] t ht
      · exact ih (c :: acc) t (by simpa [splitWsAux, hw] using ht)

theorem splitWsRuns_ne_nil (cs : List Char) : ∀ t ∈ splitWsRuns cs, t ≠ [] :=
  splitWsAux_ne_nil cs []

theorem splitWsAux_nonws (t : List Char) (ht : ∀ c ∈ t, jsWhitespace c = false) :
    ∀ (rest acc : List Char), splitWsAux (t ++ rest) acc = splitWsAux rest (t.reverse ++ acc) := by
  induction t with
  | nil => intro rest acc; simp
  | cons c t' ih =>
      intro rest acc
      have hc : jsWhitespace c = false := ht c (by simp)
      have ht' : ∀ x ∈ t', jsWhitespace x = false := fun x hx => ht x (by simp [hx])
      simp only [List.cons_append, splitWsAux, hc, Bool.false_eq_true, if_false,
        List.append_eq]
      rw [ih ht' rest (c :: acc)]
      have harg : t'.reverse ++ (c :: acc) = (c :: t').reverse ++ acc := by simp
      rw [harg]

theorem splitWsRuns_token_space (t rest : List Char) (ht : t ≠ [])
    (hns : ∀ c ∈ t, jsWhitespace c = false) :
    splitWsRuns (t ++ ' ' :: rest) = t :: splitWsRuns rest := by
  unfold splitWsRuns
  rw [splitWsAux_nonws t hns (' ' :: rest) []]
  have hr : t.reverse ++ [] ≠ [] := by simpa using ht
  simp [splitWsAux, jsWhitespace, hr]
  exact ht

theorem splitWsRuns_single (t : List Char) (ht : t ≠ [])
    (hns : ∀ c ∈ t, jsWhitespace c = false) :
    splitWsRuns t = [t] := by
  unfold splitWsRuns
  have := splitWsAux_nonws t hns [] []
  rw [List.append_nil] at this
  rw [this]
  have hr : t.reverse ++ [] ≠ [] := by simpa using ht
  simp [splitWsAux, hr]
  exact ht

theorem splitWsRuns_join (ts : List (List Char))
    (h : ∀ t ∈ ts, t ≠ [] ∧ ∀ c ∈ t, jsWhitespace c = false) :
    splitWsRuns (joinSpaceChars ts) = ts := by
  induction ts with
  | nil => simp [joinSpaceChars, splitWsRuns, splitWsAux]
  | cons t ts' ih =>
      match ts' with
      | [] =>
          have := h t (by simp)
          simpa [joinSpaceChars] using splitWsRuns_single t this.1 this.2
      | u :: ts'' =>
          have htok := h t (by simp)
          have hrest : ∀ x ∈ u :: ts'', x ≠ [] ∧ ∀ c ∈ x, jsWhitespace c = false :=
            fun x hx => h x (by simp [hx])
          have hj : joinSpaceChars (t :: u :: ts'') = t ++ ' ' :: joinSpaceChars (u :: ts'') := by
            simp [joinSpaceChars]
          rw [hj, splitWsRuns_token_space t _ htok.1 htok.2, ih hrest]

theorem dropWhile_cons_false {p : Char → Bool} {c : Char} {l : List Char}
    (h : p c = false) : List.dropWhile p (c :: l) = c :: l := by
  simp [List.dropWhile_cons, h]

theorem trimChars_eq_self {l : List Char} (c d : Char) (xs ys : List Char)
    (hc : jsWhitespace c = false) (hd : jsWhitespace d = false)
    (h1 : l = c :: xs) (h2 : l.reverse = d :: ys) : trimChars l = l := by
  unfold trimChars
  rw [h1, dropWhile_cons_false hc, ← h1, h2, dropWhile_cons_false hd, ← h2,
    List.reverse_reverse]

theorem joinSpaceChars_reverse_head (ts : List (List Char)) (hne : ts ≠ [])
    (h : ∀ t ∈ ts, t ≠ [] ∧ ∀ c ∈ t, jsWhitespace c = false) :
    ∃ d f', (joinSpaceChars ts).reverse = d :: f' ∧ jsWhitespace d = false := by
  induction ts with
  | nil => exact absurd rfl hne
  | cons t ts' ih =>
      match ts' with
      | [] =>
          have htok := h t (by simp)
          match hrev : t.reverse with
          | [] => exact absurd (by simpa using hrev) htok.1
          | d :: f' =>
              refine ⟨d, f', by simp [joinSpaceChars, hrev], ?_⟩
              have : d ∈ t.reverse := by rw [hrev]; simp
              exact htok.2 d (by simpa using this)
      | u :: ts'' =>
          have hrest : ∀ x ∈ u :: ts'', x ≠ [] ∧ ∀ c ∈ x, jsWhitespace c = false :=
            fun x hx => h x (by simp [hx])
          obtain ⟨d, f', hrev, hdw⟩ := ih (by simp) hrest
          refine ⟨d, f' ++ ' ' :: t.reverse, ?_, hdw⟩
          have hj : joinSpaceChars (t :: u :: ts'') = t ++ ' ' :: joinSpaceChars (u :: ts'') := by
            simp [joinSpaceChars]
          rw [hj, List.reverse_append, List.reverse_cons, hrev]
          simp

theorem roundTrip (h : List Char) (ts : List (List Char))
    (hh : h ≠ []) (hhw : ∀ c ∈ h, jsWhitespace c = false)
    (hts : ts ≠ []) (htok : ∀ t ∈ ts, t ≠ [] ∧ ∀ c ∈ t, jsWhitespace c = false) :
    lineToEntry (h ++ ' ' :: joinSpaceChars ts)
      = some ⟨String.mk h, String.mk (joinSpaceChars ts)⟩ := by
  obtain ⟨c, h', rfl⟩ : ∃ c h', h = c :: h' := by
    match h with
    | [] => exact absurd rfl hh
    | c :: h' => exact ⟨c, h', rfl⟩
  obtain ⟨d, f', hrev, hdw⟩ := joinSpaceChars_reverse_head ts hts htok
  have hc : jsWhitespace c = false := hhw c (by simp)
  have hlast : ((c :: h') ++ ' ' :: joinSpaceChars ts).reverse
      = d :: (f' ++ [' '] ++ (c :: h').reverse) := by
    rw [List.reverse_append, List.reverse_cons, hrev]
    simp
  have htrim : trimChars ((c :: h') ++ ' ' :: joinSpaceChars ts)
      = (c :: h') ++ ' ' :: joinSpaceChars ts :=
    trimChars_eq_self c d (h' ++ ' ' :: joinSpaceChars ts) _ hc hdw (by simp) hlast
  have hsplit : splitWsRuns ((c :: h') ++ ' ' :: joinSpaceChars ts)
      = (c :: h') :: ts := by
    rw [splitWsRuns_token_space (c :: h') _ (by simp) hhw, splitWsRuns_join ts htok]
  unfold lineToEntry
  rw [htrim]
  simp only [hsplit]
  have hlen : 2 ≤ ((c :: h') :: ts).length := by
    match ts with
    | [] => exact absurd rfl hts
    | _ :: _ => simp
  simp [hlen]
  exact hts

theorem joinSpaceChars_ne_nil (q : List Char) (rest : List (List Char)) (hq : q ≠ []) :
    joinSpaceChars (q :: rest) ≠ [] := by
  match rest with
  | [] => simpa [joinSpaceChars] using hq
  | u :: rest' =>
      have : joinSpaceChars (q :: u :: rest') = q ++ ' ' :: joinSpaceChars (u :: rest') := by
        simp [joinSpaceChars]
      simp [this]

theorem splitWsRuns_two_of_wf {line : List Char} (h : wellFormedLine line = true) :
    ∃ p q rest, splitWsRuns (trimChars line) = p :: q :: rest := by
  have hlen : 2 ≤ (splitWsRuns (trimChars line)).length := by
    simpa [wellFormedLine] using h
  match hx : splitWsRuns (trimChars line) with
  | [] => rw [hx] at hlen; simp at hlen
  | [p] => rw [hx] at hlen; simp at hlen
  | p :: q :: rest => exact ⟨p, q, rest, rfl⟩

/-- Claim C2 as written is refuted at the line `h a<TAB>b`: the parser
yields the entry whose filename is `a b` (tokens re-joined with single
spaces), while the portion of the line after the hash token is the raw
remainder `a<TAB>b`, and the two differ. -/
theorem C2_counterexample :
    parseChecksums "h a\tb" = [⟨"h", "a b"⟩]
      ∧ afterHash "h a\tb".data = "a\tb".data
      ∧ ("a b" : String) ≠ "a\tb" :=
  ⟨by decide, by decide, by decide⟩

/-- Claim C2 (amended): the parser maps the well-formed lines of any
manifest to entries in input order — a text with `n` well-formed lines
yields exactly `n` entries — while blank lines and lines with a single
token yield no entry; and for a well-formed line the filename is the
whitespace-separated tokens after the hash re-joined with single
spaces, so a filename whose internal whitespace consists of single
spaces (and no other whitespace) round-trips intact. -/
theorem C2_parse_wellformed_lines_amended :
    (∀ content : String,
        parseChecksums content
          = ((splitOnChar '\n' content.data).filter wellFormedLine).map entryOfLine)
    ∧ (∀ line : List Char, (splitWsRuns (trimChars line)).length < 2 →
        lineToEntry line = none)
    ∧ (∀ (h : List Char) (ts : List (List Char)),
        h ≠ [] → (∀ c ∈ h, jsWhitespace c = false) →
        ts ≠ [] → (∀ t ∈ ts, t ≠ [] ∧ ∀ c ∈ t, jsWhitespace c = false) →
        lineToEntry (h ++ ' ' :: joinSpaceChars ts)
          = some ⟨String.mk h, String.mk (joinSpaceChars ts)⟩) := by
  refine ⟨parseChecksums_filter, ?_, roundTrip⟩
  intro line hlt
  rw [lineToEntry_eq]
  have : wellFormedLine line = false := by
    simp [wellFormedLine]
    omega
  simp [this]

theorem C2_amended_witness :
    lineToEntry ("ha".data ++ ' ' :: joinSpaceChars ["fi".data, "le".data])
      = some ⟨"ha", "fi le"⟩ := by
  have := C2_parse_wellformed_lines_amended.2.2 "ha".data ["fi".data, "le".data]
    (by decide) (by decide) (by decide) (by decide)
  exact this.trans (by decide)

/-- Claim C3: every entry the parser produces has a non-empty filename
and a non-empty hash, and a trimmed line with fewer than two
whitespace-separated tokens produces no entry (and, the parser being
total, no error). -/
theorem C3_entry_invariants :
    (∀ content : String, ∀ e ∈ parseChecksums content,
        e.filename ≠ "" ∧ e.hash ≠ "")
    ∧ (∀ line : List Char, (splitWsRuns (trimChars line)).length < 2 →
        lineToEntry line = none) := by
  constructor
  · intro content e he
    rw [parseChecksums_filter] at he
    obtain ⟨line, hline, rfl⟩ := List.mem_map.mp he
    have hwf : wellFormedLine line = true := (List.mem_filter.mp hline).2
    obtain ⟨p, q, rest, hp⟩ := splitWsRuns_two_of_wf hwf
    have hpne : p ≠ [] := splitWsRuns_ne_nil _ p (by rw [hp]; simp)
    have hqne : q ≠ [] := splitWsRuns_ne_nil _ q (by rw [hp]; simp)
    have hform : entryOfLine line
        = ⟨String.mk p, String.mk (joinSpaceChars (q :: rest))⟩ := by
      simp [entryOfLine, hp]
    rw [hform]
    constructor
    · intro hc
      exact joinSpaceChars_ne_nil q rest hqne (congrArg String.data hc)
    · intro hc
      exact hpne (congrArg String.data hc)
  · intro line hlt
    exact C2_parse_wellformed_lines_amended.2.1 line hlt

/-- JavaScript `argv[2] || dflt`: the positional version argument, with
the default applied when the argument is absent or empty (the empty
string is falsy). -/
def versionOr (dflt : String) (args : List String) : String :=
  match args with
  | [] => dflt
  | a :: _ => if a = "" then dflt else a

/-- The release base URL built by the fetcher from the version argument. -/
def fetchBaseUrl (version : String) : String :=
  "https://github.com/hulo-lang/hulo/releases/download/" ++ version

/-- Environment of one fetcher run: whether clearing the staging
directory succeeds, the manifest fetch result (`none` = unreachable),
and a per-filename download oracle (`false` = that transfer fails). -/
structure FetchEnv where
  clearOk : Bool
  manifestText : Option String
  downloadOk : String → Bool

/-- Observable outcome of a fetcher run: the process exit code, the
(url, destination) pairs of every attempted archive download, and the
filenames whose downloads succeeded resp. failed. -/
structure FetchOutcome where
  exitCode : Nat
  downloads : List (String × String)
  succeeded : List String
  failed : List String

/-- The fetcher's `main`: a failed staging-directory clear or a failed
manifest fetch exits 1 before any download; otherwise every manifest
entry's download is attempted (each wrapped in its own try/catch and
collected by `Promise.all`), failures are recorded per entry, and the
process exits 0. -/
def fetchRun (env : FetchEnv) (args : List String) : FetchOutcome :=
  let version := versionOr "v0.1.0" args
  if env.clearOk then
    match env.manifestText with
    | none => ⟨1, [], [], []⟩
    | some text =>
      let names := (parseChecksums text).map (fun e => e.filename)
      { exitCode := 0
        downloads := names.map (fun n => (fetchBaseUrl version ++ "/" ++ n, "temp/" ++ n))
        succeeded := names.filter (fun n => env.downloadOk n)
        failed := names.filter (fun n => !env.downloadOk n) }
  else ⟨1, [], [], []⟩

/-- Characters the regex metacharacter `.` matches (anything but line
terminators). -/
def regexDotChar (c : Char) : Bool := !(c = '\n' || c = '\r')

/-- Backtracking loop of the lazy group of `hulo_(.+?)\.(tar\.gz|zip)`:
`acc` holds the group characters consumed so far (reversed); the group
is extended one character at a time and the extension alternatives are
tried after each extension, so the shortest group wins. -/
def matchGroup : List Char → List Char → Option (List Char)
  | [], _ => none
  | c :: rest, acc =>
      if regexDotChar c then
        if rest.take 7 = ".tar.gz".data ∨ rest.take 4 = ".zip".data then
          some (c :: acc).reverse
        else matchGroup rest (c :: acc)
      else none

/-- Match `hulo_(.+?)\.(tar\.gz|zip)` anchored at the head of the
input, returning capture group 1. -/
def matchFrom (cs : List Char) : Option (List Char) :=
  if cs.take 5 = "hulo_".data then matchGroup (cs.drop 5) [] else none

/-- Model of `filename.match(/hulo_(.+?)\.(tar\.gz|zip)/)` from the installer's
per-entry loop: the regex is unanchored, so the engine scans start
positions left to right and returns the first position that matches,
with the lazily-matched group. -/
def findHuloMatch : List Char → Option (List Char)
  | [] => none
  | c :: rest =>
      match matchFrom (c :: rest) with
      | some g => some g
      | none => findHuloMatch rest

/-- Model of `platformKey.toLowerCase().replace(/_/g, '-')`. -/
def normalizeKey (s : String) : String :=
  String.mk (s.data.map (fun c => if c.toLower = '_' then '-' else c.toLower))

/-- One value of the `platformInfo` record of `scripts/postprepare.ts`. -/
structure PlatformData where
  os : String
  arch : String
  description : String
  keywords : List String
deriving DecidableEq, Repr

/-- The static platform table of `scripts/postprepare.ts`, in source
order. -/
def platformInfoList : List (String × PlatformData) := [
  ("darwin-arm64", ⟨"darwin", "arm64", "Hulo compiler for macOS (Apple Silicon)",
    ["hulo", "compiler", "macos", "darwin", "arm64", "apple-silicon", "m1", "m2"]⟩),
  ("darwin-x86-64", ⟨"darwin", "x64", "Hulo compiler for macOS (Intel)",
    ["hulo", "compiler", "macos", "darwin", "x86_64", "intel"]⟩),
  ("linux-arm64", ⟨"linux", "arm64", "Hulo compiler for Linux (ARM64)",
    ["hulo", "compiler", "linux", "arm64", "aarch64"]⟩),
  ("linux-i386", ⟨"linux", "ia32", "Hulo compiler for Linux (32-bit)",
    ["hulo", "compiler", "linux", "i386", "32bit"]⟩),
  ("linux-x86-64", ⟨"linux", "x64", "Hulo compiler for Linux (64-bit)",
    ["hulo", "compiler", "linux", "x86_64", "64bit"]⟩),
  ("windows-arm64", ⟨"win32", "arm64", "Hulo compiler for Windows (ARM64)",
    ["hulo", "compiler", "windows", "arm64"]⟩),
  ("windows-i386", ⟨"win32", "ia32", "Hulo compiler for Windows (32-bit)",
    ["hulo", "compiler", "windows", "i386", "32bit"]⟩),
  ("windows-x86-64", ⟨"win32", "x64", "Hulo compiler for Windows (64-bit)",
    ["hulo", "compiler", "windows", "x86_64", "64bit"]⟩)]

/-- Lookup in the static platform table (`platformInfo[platformName]`). -/
def platformInfo (k : String) : Option PlatformData :=
  (platformInfoList.find? (fun p => p.1 == k)).map (fun p => p.2)

/-- Test that `p` is a prefix of `s` (JavaScript `s.startsWith(p)`). -/
def strStarts (p s : String) : Bool := s.data.take p.data.length == p.data

/-- Test that `p` is a suffix of `s` (JavaScript `s.endsWith(p)`). -/
def strEnds (p s : String) : Bool := s.data.drop (s.data.length - p.data.length) == p.data

/-- Model of `platformName.startsWith('windows') ? 'hulo.exe' : 'hulo'`. -/
def binaryNameFor (platformName : String) : String :=
  if strStarts "windows" platformName then "hulo.exe" else "hulo"

/-- What `extractFile` does with a staged file: spawn `unzip` (or
PowerShell) for `.zip`, spawn `tar` for `.tar.gz`, and otherwise copy
the file verbatim into the extraction directory. -/
inductive ExtractAction where
  | unzip
  | untar
  | copyVerbatim
deriving DecidableEq, Repr

/-- The branch `extractFile` takes, decided purely by the file name's
suffix. -/
def extractAction (filePath : String) : ExtractAction :=
  if strEnds ".zip" filePath then .unzip
  else if strEnds ".tar.gz" filePath then .untar
  else .copyVerbatim

/-- A file tree: the contents of one directory on disk.  File contents
are abstracted to an identifier. -/
inductive FsNode where
  | file (id : Nat)
  | dir (entries : List (String × FsNode))

/-- Association lookup among a directory's entries. -/
def lookupEntry : List (String × FsNode) → String → Option FsNode
  | [], _ => none
  | (n, v) :: rest, name => if n = name then some v else lookupEntry rest name

/-- Replace (or append) a named entry of a directory. -/
def setEntry : List (String × FsNode) → String → FsNode → List (String × FsNode)
  | [], name, v => [(name, v)]
  | (n, w) :: rest, name, v =>
      if n = name then (n, v) :: rest else (n, w) :: setEntry rest name v

/-- Walk a path down a tree. -/
def fsGet : FsNode → List String → Option FsNode
  | t, [] => some t
  | .file _, _ :: _ => none
  | .dir es, n :: rest =>
      match lookupEntry es n with
      | none => none
      | some c => fsGet c rest

/-- Model of `fs.mkdir(path, { recursive: true })`: create every missing
directory along the path; fail if a path component is a file. -/
def mkdirp : FsNode → List String → Except String FsNode
  | t, [] =>
      match t with
      | .dir es => .ok (.dir es)
      | .file _ => .error "ENOTDIR"
  | .file _, _ :: _ => .error "ENOTDIR"
  | .dir es, n :: rest =>
      match mkdirp ((lookupEntry es n).getD (.dir [])) rest with
      | .error e => .error e
      | .ok c => .ok (.dir (setEntry es n c))

/-- Write a file at a path whose parent directory must already exist
(`fs.copyFile` semantics for the destination). -/
def writeFileAt : FsNode → List String → Nat → Except String FsNode
  | .dir es, [name], i => .ok (.dir (setEntry es name (.file i)))
  | .dir es, n :: m :: rest, i =>
      match lookupEntry es n with
      | some child =>
          match writeFileAt child (m :: rest) i with
          | .error e => .error e
          | .ok c => .ok (.dir (setEntry es n c))
      | none => .error "ENOENT"
  | .file _, _, _ => .error "ENOTDIR"
  | _, [], _ => .error "EISDIR"

/-- Model of `fs.copyFile(src, dst)`: the source must be a file and the
destination's parent directory must exist. -/
def copyFileNode (t : FsNode) (src dst : List String) : Except String FsNode :=
  match fsGet t src with
  | some (.file i) => writeFileAt t dst i
  | some (.dir _) => .error "EISDIR"
  | none => .error "ENOENT"

/-- The loop body of `copyDirectory` from `scripts/postprepare.ts`,
iterating a snapshot of the source directory's entries in order:
a directory entry is created with `mkdir { recursive: true }` (which
also creates missing parents) before recursing; a file entry is copied
with `fs.copyFile`, which fails when the destination directory does
not exist.  Faithful to the source for the disjoint source/destination
paths the installer uses. -/
def copyEntries : List (String × FsNode) → FsNode → List String → Except String FsNode
  | [], t, _ => .ok t
  | (n, .dir sub) :: rest, t, dst =>
      match mkdirp t (dst ++ [n]) with
      | .error e => .error e
      | .ok t1 =>
          match copyEntries sub t1 (dst ++ [n]) with
          | .error e => .error e
          | .ok t2 => copyEntries rest t2 dst
  | (n, .file i) :: rest, t, dst =>
      match writeFileAt t (dst ++ [n]) i with
      | .error e => .error e
      | .ok t1 => copyEntries rest t1 dst

/-- Model of `copyDirectory(source, target)`: read the source directory and copy
its entries; note that the target directory itself is never created
here. -/
def copyDirNode (t : FsNode) (src dst : List String) : Except String FsNode :=
  match fsGet t src with
  | some (.dir es) => copyEntries es t dst
  | some (.file _) => .error "ENOTDIR"
  | none => .error "ENOENT"

/-- Model of `rmSync(path, { force: true, ... })`: remove the entry at the path
if present; silently succeed otherwise. -/
def removePath : FsNode → List String → FsNode
  | t, [] => t
  | .file i, _ :: _ => .file i
  | .dir es, [n] => .dir (es.filter (fun p => p.1 != n))
  | .dir es, n :: m :: rest =>
      .dir (es.map (fun p => if p.1 = n then (p.1, removePath p.2 (m :: rest)) else p))

/-- Lines 396-433 of `scripts/postprepare.ts`, relative to the platform
output directory: create `bin/`, copy the executable into it, copy the
`std` tree into `bin/std` via `copyDirectory`, then delete the
top-level originals. -/
def relocate (t : FsNode) (binaryName : String) : Except String FsNode :=
  match mkdirp t ["bin"] with
  | .error e => .error e
  | .ok t1 =>
      match copyFileNode t1 [binaryName] ["bin", binaryName] with
      | .error e => .error e
      | .ok t2 =>
          match copyDirNode t2 ["std"] ["bin", "std"] with
          | .error e => .error e
          | .ok t3 => .ok (removePath (removePath t3 [binaryName]) ["std"])

/-- Handlebars HTML-escaping of one character (`{{...}}` interpolation
escapes by default). -/
def hbEscapeChar (c : Char) : List Char :=
  if c = '&' then "&amp;".data
  else if c = '<' then "&lt;".data
  else if c = '>' then "&gt;".data
  else if c = '"' then "&quot;".data
  else if c = Char.ofNat 39 then "&#x27;".data
  else if c = Char.ofNat 96 then "&#x60;".data
  else if c = '=' then "&#x3D;".data
  else [c]

/-- Handlebars `escapeExpression`. -/
def hbEscape (s : String) : String :=
  String.mk (s.data.map hbEscapeChar).flatten

/-- Rendering of the keyword array inside the package descriptor
template (`{{#each keywords}}...{{/each}}`). -/
def kwRender (ks : List String) : String :=
  String.intercalate ", " (ks.map (fun k => "\"" ++ hbEscape k ++ "\""))

/-- The data record built for the package descriptor template
(`packageJsonData`, lines 436-444 of `scripts/postprepare.ts`). -/
structure PkgData where
  platformName : String
  version : String
  description : String
  binaryName : String
  keywords : List String
  os : String
  arch : String
deriving DecidableEq, Repr

/-- The package descriptor template up to (and excluding) the `os`
field. -/
def pkgHead (d : PkgData) : String :=
  "\x7b\n    \"name\": \"@hulo/" ++ hbEscape d.platformName
    ++ "\",\n    \"version\": \"" ++ hbEscape d.version
    ++ "\",\n    \"description\": \"" ++ hbEscape d.description
    ++ "\",\n    \"main\": \"index.js\",\n    \"bin\": \x7b\n        \"hulo\": \"./bin/"
    ++ hbEscape d.binaryName
    ++ "\"\n    \x7d,\n    \"files\": [\n        \"bin/\",\n        \"index.js\",\n        \"*.md\",\n        \"LICENSE\"\n    ],\n    \"keywords\": ["
    ++ kwRender d.keywords
    ++ "],\n    \"author\": \"The Hulo Authors\",\n    \"license\": \"MIT\",\n    \"homepage\": \"https://hulo-lang.github.io/docs/\",\n    \"repository\": \x7b\n        \"type\": \"git\",\n        \"url\": \"https://github.com/hulo-lang/hulo.git\"\n    \x7d,\n    \"publishConfig\": \x7b\n        \"access\": \"public\"\n    \x7d,\n    "

/-- The `os` declaration of the package descriptor. -/
def osDecl (os : String) : String := "\"os\": [\"" ++ os ++ "\"]"

/-- The `cpu` declaration of the package descriptor. -/
def cpuDecl (arch : String) : String := "\"cpu\": [\"" ++ arch ++ "\"]"

/-- The package descriptor template after the `cpu` field. -/
def pkgTail : String :=
  ",\n    \"engines\": \x7b\n        \"node\": \">=14.0.0\"\n    \x7d\n\x7d"

/-- Model of `packageJsonTemplate(packageJsonData)`: the rendered package
descriptor. -/
def renderPackageJson (d : PkgData) : String :=
  pkgHead d ++ osDecl (hbEscape d.os) ++ ",\n    " ++ cpuDecl (hbEscape d.arch) ++ pkgTail

/-- Model of `indexJsTemplate({ binaryName })`: the rendered launcher script. -/
def renderIndexJs (binaryName : String) : String :=
  "#!/usr/bin/env node\n\nconst \x7b spawn \x7d = require(\x27child_process\x27);\nconst path = require(\x27path\x27);\n\n// 获取可执行文件路径\nconst exePath = path.join(__dirname, \x27bin\x27, \x27"
    ++ hbEscape binaryName
    ++ "\x27);\n\n// 执行 hulo 可执行文件\nconst child = spawn(exePath, process.argv.slice(2), \x7b\n    stdio: \x27inherit\x27,\n    cwd: process.cwd()\n\x7d);\n\nchild.on(\x27error\x27, (err) => \x7b\n    console.error(`Failed to start hulo: $\x7berr.message\x7d`);\n    process.exit(1);\n\x7d);\n\nchild.on(\x27close\x27, (code) => \x7b\n    process.exit(code);\n\x7d);\n"

/-- Model of `readmeTemplate(readmeData)`: the rendered readme. -/
def renderReadme (platformName description os arch : String) : String :=
  "# @hulo/" ++ hbEscape platformName ++ "\n\n" ++ hbEscape description
    ++ "\n\n## Installation\n\n```bash\nnpm install @hulo/" ++ hbEscape platformName
    ++ "\n```\n\n## Usage\n\n```bash\nnpx @hulo/" ++ hbEscape platformName
    ++ " -V\n```\n\n## Platform\n\n- **OS**: " ++ hbEscape os
    ++ "\n- **Architecture**: " ++ hbEscape arch
    ++ "\n\n## License\n\nMIT License - see [LICENSE](LICENSE) for details.\n"

/-- The output directory of one platform package
(`join(cwd, 'temp', 'packages', 'hulo-' + platformName)`). -/
def pkgDirPath (platformName : String) : String := "temp/packages/hulo-" ++ platformName

/-- Environment of one installer run: the version argument as resolved
from argv, the set of filenames present in the staging directory, and
an extraction oracle giving the entries an archive unpacks into the
platform directory. -/
structure InstallEnv where
  version : String
  staging : List String
  extractOf : String → List (String × FsNode)

/-- Per-entry result of the installer's loop, mirroring its logged
skip reasons and the generated text artifacts of a packaged entry. -/
inductive StepOutcome where
  | skippedFormat
  | skippedPlatform (key : String)
  | skippedMissing
  | packaged (writes : List (String × String))
deriving DecidableEq, Repr

/-- Contents of the platform directory right after the extraction step:
for a `.zip` / `.tar.gz` name the archive tool's output, otherwise the
staged file copied verbatim under its own name. -/
def extractedEntries (extractOf : String → List (String × FsNode)) (filename : String) :
    List (String × FsNode) :=
  match extractAction filename with
  | .copyVerbatim => [(filename, FsNode.file 0)]
  | .unzip => extractOf filename
  | .untar => extractOf filename

/-- One iteration of the installer's `for (const entry of checksums)`
loop: filename pattern match, platform lookup, staged-file existence
check, extraction, relocation, and generation of the three text
artifacts.  A relocation failure escapes the loop (there is no
per-entry catch) and is surfaced as `.error`. -/
def stepEntry (env : InstallEnv) (e : ChecksumEntry) : Except String StepOutcome :=
  match findHuloMatch e.filename.data with
  | none => .ok .skippedFormat
  | some keyChars =>
      let platformKey := String.mk keyChars
      let platformName := normalizeKey platformKey
      match platformInfo platformName with
      | none => .ok (.skippedPlatform platformKey)
      | some pd =>
          if e.filename ∈ env.staging then
            let tree : FsNode := .dir (extractedEntries env.extractOf e.filename)
            let bn := binaryNameFor platformName
            match relocate tree bn with
            | .error msg => .error msg
            | .ok _ => .ok (.packaged [
                (pkgDirPath platformName ++ "/package.json",
                  renderPackageJson
                    ⟨platformName, env.version, pd.description, bn, pd.keywords, pd.os, pd.arch⟩),
                (pkgDirPath platformName ++ "/index.js", renderIndexJs bn),
                (pkgDirPath platformName ++ "/README.md",
                  renderReadme platformName pd.description pd.os pd.arch)])
          else .ok .skippedMissing

/-- The installer's loop over the parsed manifest: entries are
processed in order; a skip contributes its reason and the loop goes on;
an uncaught per-entry failure aborts the remainder of the run. -/
def installerRun (env : InstallEnv) : List ChecksumEntry → Except String (List (String × StepOutcome))
  | [] => .ok []
  | e :: rest =>
      match stepEntry env e with
      | .error m => .error m
      | .ok o =>
          match installerRun env rest with
          | .error m => .error m
          | .ok tr => .ok ((e.filename, o) :: tr)

/-- The installer's `main`: resolve the version argument (default
`0.1.0`), parse the staged manifest, and run the loop. -/
def installerMain (args : List String) (manifestText : String) (staging : List String)
    (extractOf : String → List (String × FsNode)) :
    Except String (List (String × StepOutcome)) :=
  installerRun ⟨versionOr "0.1.0" args, staging, extractOf⟩ (parseChecksums manifestText)

/-- The generated text artifacts of a run's trace, in write order. -/
def traceWrites : List (String × StepOutcome) → List (String × String)
  | [] => []
  | (_, StepOutcome.packaged w) :: rest => w ++ traceWrites rest
  | (_, StepOutcome.skippedFormat) :: rest => traceWrites rest
  | (_, StepOutcome.skippedPlatform _) :: rest => traceWrites rest
  | (_, StepOutcome.skippedMissing) :: rest => traceWrites rest

/-- State visible to the installer across runs: the staged manifest and
archives (which a run never modifies) and the generated artifacts of
the most recent successful run. -/
structure InstallerState where
  manifestText : String
  staging : List String
  outputs : List (String × String)

/-- One installer run as a state transformer: on success the generated
artifacts replace the previous outputs; manifest and staged archives
are untouched. -/
def runInstallerState (args : List String) (extractOf : String → List (String × FsNode))
    (s : InstallerState) : InstallerState :=
  match installerMain args s.manifestText s.staging extractOf with
  | .ok tr => { s with outputs := traceWrites tr }
  | .error _ => s

/-- Occurrence of `pat` as a contiguous subsequence of `l` (decidable
substring test used to read properties off generated artifacts). -/
def containsSeq (pat l : List Char) : Bool :=
  l.tails.any (fun t => t.take pat.length == pat)

/-- Occurrence of `p` as a substring of `s`, stated by decomposition. -/
def strContains (p s : String) : Prop := ∃ a b : String, s = a ++ p ++ b

/-- The error message of a failed installer run, if any. -/
def runError : Except String (List (String × StepOutcome)) → Option String
  | .error m => some m
  | .ok _ => none

/-- The data record the installer feeds to the package descriptor
template for a recognized platform. -/
def installerPkgData (platformName version : String) (pd : PlatformData) : PkgData :=
  ⟨platformName, version, pd.description, binaryNameFor platformName, pd.keywords, pd.os,
    pd.arch⟩

/-- The three generated text artifacts of one recognized platform, as a
function of the platform name, its table entry and the version string
alone. -/
def artifactsFor (platformName : String) (pd : PlatformData) (version : String) :
    List (String × String) :=
  [(pkgDirPath platformName ++ "/package.json",
      renderPackageJson (installerPkgData platformName version pd)),
    (pkgDirPath platformName ++ "/index.js", renderIndexJs (binaryNameFor platformName)),
    (pkgDirPath platformName ++ "/README.md",
      renderReadme platformName pd.description pd.os pd.arch)]

/-- Claim C5: in the fetcher, per-entry download failures are isolated —
with the staging directory cleared and the manifest fetched, every
manifest entry's download is attempted whatever the download oracle
says, an entry succeeds or fails depending only on its own oracle
value, failures are recorded, and the run exits 0; whereas a failed
staging-directory clear or manifest fetch exits 1 immediately. -/
theorem C5_fetcher_failure_semantics :
    (∀ (env : FetchEnv) (args : List String) (text : String),
        env.clearOk = true → env.manifestText = some text →
        (fetchRun env args).exitCode = 0
        ∧ (fetchRun env args).downloads
            = ((parseChecksums text).map (fun e => e.filename)).map
                (fun n => (fetchBaseUrl (versionOr "v0.1.0" args) ++ "/" ++ n, "temp/" ++ n))
        ∧ (∀ n : String,
            (n ∈ (fetchRun env args).failed ↔
              n ∈ (parseChecksums text).map (fun e => e.filename) ∧ env.downloadOk n = false)
            ∧ (n ∈ (fetchRun env args).succeeded ↔
              n ∈ (parseChecksums text).map (fun e => e.filename) ∧ env.downloadOk n = true)))
    ∧ (∀ (env : FetchEnv) (args : List String), env.clearOk = false →
        (fetchRun env args).exitCode = 1)
    ∧ (∀ (env : FetchEnv) (args : List String), env.manifestText = none →
        (fetchRun env args).exitCode = 1) := by
  refine ⟨?_, ?_, ?_⟩
  · intro env args text hclear hman
    unfold fetchRun
    rw [hclear, hman]
    refine ⟨rfl, rfl, ?_⟩
    intro n
    constructor
    · simp [List.mem_filter]
    · simp [List.mem_filter]
  · intro env args hclear
    simp [fetchRun, hclear]
  · intro env args hman
    unfold fetchRun
    rw [hman]
    cases h : env.clearOk <;> simp

/-- Example fetcher environment: manifest with two entries, one of
which fails to download. -/
def fetchEnvEx : FetchEnv :=
  ⟨true, some "aa good.tar.gz\nbb bad.tar.gz", fun n => n != "bad.tar.gz"⟩

theorem C5_fetcher_failure_semantics_witness :
    (fetchRun fetchEnvEx ["v1.2.3"]).exitCode = 0
      ∧ ("bad.tar.gz" ∈ (fetchRun fetchEnvEx ["v1.2.3"]).failed ↔
          "bad.tar.gz" ∈ (parseChecksums "aa good.tar.gz\nbb bad.tar.gz").map
              (fun e => e.filename)
            ∧ fetchEnvEx.downloadOk "bad.tar.gz" = false) := by
  have h := C5_fetcher_failure_semantics.1 fetchEnvEx ["v1.2.3"]
    "aa good.tar.gz\nbb bad.tar.gz" rfl rfl
  exact ⟨h.1, (h.2.2 "bad.tar.gz").1⟩

theorem stepEntry_filename (env : InstallEnv) (e e' : ChecksumEntry)
    (h : e.filename = e'.filename) : stepEntry env e = stepEntry env e' := by
  unfold stepEntry
  rw [h]

theorem installerRun_filenames (env : InstallEnv) :
    ∀ l1 l2 : List ChecksumEntry,
      l1.map (fun e => e.filename) = l2.map (fun e => e.filename) →
      installerRun env l1 = installerRun env l2 := by
  intro l1
  induction l1 with
  | nil =>
      intro l2 h
      cases l2 with
      | nil => rfl
      | cons _ _ => simp at h
  | cons e r ih =>
      intro l2 h
      cases l2 with
      | nil => simp at h
      | cons e2 r2 =>
          simp only [List.map_cons, List.cons.injEq] at h
          unfold installerRun
          rw [stepEntry_filename env e e2 h.1, ih r2 h.2, h.1]

/-- Oracle used by concrete installer runs: the archive unpacks to the
executable and a `std` tree whose first entry is a directory. -/
def dirFirstOracle : String → List (String × FsNode) := fun _ =>
  [("hulo", FsNode.file 1), ("std", FsNode.dir [("lib", FsNode.dir [("io.hl", FsNode.file 3)])])]

/-- Claim C4: the parsed hash never influences the pipeline — for any
two manifests whose parsed entries carry the same filename sequence
(in particular any two manifests equal except for the hash token of
each line), the fetcher attempts the same downloads to the same
destinations with the same per-entry outcomes and exit code, and the
installer produces an identical run (same skips, same relocations,
same generated artifacts); no checksum comparison is performed
anywhere. -/
theorem C4_hash_independence :
    ∀ t1 t2 : String,
      (parseChecksums t1).map (fun e => e.filename)
        = (parseChecksums t2).map (fun e => e.filename) →
      (∀ (args : List String) (clearOk : Bool) (dlOk : String → Bool),
          fetchRun ⟨clearOk, some t1, dlOk⟩ args = fetchRun ⟨clearOk, some t2, dlOk⟩ args)
      ∧ (∀ (args : List String) (staging : List String)
          (extractOf : String → List (String × FsNode)),
          installerMain args t1 staging extractOf = installerMain args t2 staging extractOf) := by
  intro t1 t2 h
  constructor
  · intro args clearOk dlOk
    cases clearOk <;> simp [fetchRun, h]
  · intro args staging extractOf
    unfold installerMain
    exact installerRun_filenames _ _ _ h

theorem C4_hash_independence_witness :
    fetchRun ⟨true, some "aaa hulo_Linux_x86_64.tar.gz", fun _ => true⟩ []
        = fetchRun ⟨true, some "bbb hulo_Linux_x86_64.tar.gz", fun _ => true⟩ []
      ∧ installerMain [] "aaa hulo_Linux_x86_64.tar.gz" ["hulo_Linux_x86_64.tar.gz"]
          dirFirstOracle
        = installerMain [] "bbb hulo_Linux_x86_64.tar.gz" ["hulo_Linux_x86_64.tar.gz"]
          dirFirstOracle := by
  have h := C4_hash_independence "aaa hulo_Linux_x86_64.tar.gz" "bbb hulo_Linux_x86_64.tar.gz"
    (by decide)
  exact ⟨h.1 [] true (fun _ => true), h.2 [] ["hulo_Linux_x86_64.tar.gz"] dirFirstOracle⟩

/-- Claim C6: an entry whose filename does not match the
`hulo_<key>.(tar.gz|zip)` pattern, or whose normalized key is absent
from the platform table, is skipped with its logged reason recorded in
the trace, contributes no failure, and leaves the processing of all
remaining entries unchanged. -/
theorem C6_skip_and_continue :
    (∀ (env : InstallEnv) (e : ChecksumEntry) (rest : List ChecksumEntry),
        findHuloMatch e.filename.data = none →
        installerRun env (e :: rest)
          = (installerRun env rest).map
              (fun tr => (e.filename, StepOutcome.skippedFormat) :: tr))
    ∧ (∀ (env : InstallEnv) (e : ChecksumEntry) (rest : List ChecksumEntry) (k : List Char),
        findHuloMatch e.filename.data = some k →
        platformInfo (normalizeKey (String.mk k)) = none →
        installerRun env (e :: rest)
          = (installerRun env rest).map
              (fun tr => (e.filename, StepOutcome.skippedPlatform (String.mk k)) :: tr)) := by
  constructor
  · intro env e rest hm
    show (match stepEntry env e with
      | Except.error m => Except.error m
      | Except.ok o =>
          match installerRun env rest with
          | Except.error m => Except.error m
          | Except.ok tr => Except.ok ((e.filename, o) :: tr)) = _
    rw [show stepEntry env e = .ok .skippedFormat by unfold stepEntry; rw [hm]]
    cases installerRun env rest <;> simp [Except.map]
  · intro env e rest k hm hp
    show (match stepEntry env e with
      | Except.error m => Except.error m
      | Except.ok o =>
          match installerRun env rest with
          | Except.error m => Except.error m
          | Except.ok tr => Except.ok ((e.filename, o) :: tr)) = _
    rw [show stepEntry env e = .ok (.skippedPlatform (String.mk k)) by
      unfold stepEntry; rw [hm]; simp only [hp]]
    cases installerRun env rest <;> simp [Except.map]

theorem C6_skip_and_continue_witness :
    installerRun ⟨"1.2.3", [], dirFirstOracle⟩
        [⟨"aa", "hulo-src.tar.gz"⟩, ⟨"bb", "hulo_Plan9_386.tar.gz"⟩]
      = (installerRun ⟨"1.2.3", [], dirFirstOracle⟩ [⟨"bb", "hulo_Plan9_386.tar.gz"⟩]).map
          (fun tr => ("hulo-src.tar.gz", StepOutcome.skippedFormat) :: tr) :=
  C6_skip_and_continue.1 ⟨"1.2.3", [], dirFirstOracle⟩ ⟨"aa", "hulo-src.tar.gz"⟩
    [⟨"bb", "hulo_Plan9_386.tar.gz"⟩] (by decide)

theorem C3_entry_invariants_witness :
    (⟨"h", "f g"⟩ : ChecksumEntry).filename ≠ ""
      ∧ (⟨"h", "f g"⟩ : ChecksumEntry).hash ≠ "" :=
  C3_entry_invariants.1 "h f g" ⟨"h", "f g"⟩ (by decide)

/-- Extraction result for the failing input of claim C7: the archive
places `hulo` and a `std/` directory at the top level, and the first
entry readdir reports inside `std/` is a plain file. -/
def stdFileFirstEntries : List (String × FsNode) :=
  [("hulo", FsNode.file 1), ("std", FsNode.dir [("fmt.hl", FsNode.file 2)])]

/-- The outcome of the relocation step, reduced to its error message. -/
def relocateError (t : FsNode) (bn : String) : Option String :=
  match relocate t bn with
  | .error m => some m
  | .ok _ => none

/-- Claim C7 fails on the code: for the staged archive
`hulo_Darwin_arm64.tar.gz` whose extraction places `hulo` and `std/`
at the top level, with `std/` containing a top-level file first, the
relocation step fails — `copyDirectory(sourceStd, targetStd)` never
creates `bin/std` itself, so the `fs.copyFile` of the file entry hits
a missing destination directory — and the uncaught error aborts the
whole installer run instead of producing `bin/std/`. -/
theorem C7_std_relocation_fails :
    relocateError (FsNode.dir stdFileFirstEntries) "hulo" = some "ENOENT"
    ∧ runError (installerMain ["0.1.0"] "abc  hulo_Darwin_arm64.tar.gz"
          ["hulo_Darwin_arm64.tar.gz"] (fun _ => stdFileFirstEntries))
        = some "ENOENT" :=
  ⟨by decide, by decide⟩

/-- When the first entry of `std/` happens to be a directory, the
recursive `mkdir` inside `copyDirectory` creates `bin/std` as a side
effect and the run produces exactly the layout claim C7 describes:
`bin/hulo` and `bin/std/` exist and no top-level `hulo` or `std`
remains. -/
theorem relocate_dirFirst_layout :
    (match relocate (FsNode.dir [("hulo", FsNode.file 1),
        ("std", FsNode.dir [("lib", FsNode.dir [("io.hl", FsNode.file 3)])])]) "hulo" with
      | .ok t => ((fsGet t ["bin", "hulo"]).isSome, (fsGet t ["bin", "std"]).isSome,
          (fsGet t ["hulo"]).isNone, (fsGet t ["std"]).isNone)
      | .error _ => (false, false, false, false))
      = (true, true, true, true) := by decide

/-- Association lookup among a run's generated artifacts. -/
def lookupWrite : List (String × String) → String → Option String
  | [], _ => none
  | (p, c) :: rest, path => if p = path then some c else lookupWrite rest path

/-- The installer run of claim C1: positional version argument
`v1.2.3`, manifest listing `hulo_Linux_x86_64.tar.gz`, the archive
staged and extracting to `hulo` plus a `std/` tree. -/
def c1main : Except String (List (String × StepOutcome)) :=
  installerMain ["v1.2.3"] "abc123  hulo_Linux_x86_64.tar.gz"
    ["hulo_Linux_x86_64.tar.gz"] dirFirstOracle

/-- The generated artifacts of that run. -/
def c1writes : List (String × String) :=
  match c1main with
  | .ok tr => traceWrites tr
  | .error _ => []

/-- The package descriptor that run generates. -/
def c1pkgJson : String :=
  (lookupWrite c1writes "temp/packages/hulo-linux-x86-64/package.json").getD ""

set_option maxRecDepth 100000 in
/-- Claim C1 fails on the code: run with the positional argument
`v1.2.3`, the installer writes the argument into the descriptor
verbatim — the descriptor declares version `v1.2.3`, and contains no
`"version": "1.2.3"` declaration. -/
theorem C1_counterexample :
    versionOr "0.1.0" ["v1.2.3"] = "v1.2.3"
    ∧ runError c1main = none
    ∧ containsSeq "\"name\": \"@hulo/linux-x86-64\"".data c1pkgJson.data = true
    ∧ containsSeq "\"version\": \"v1.2.3\"".data c1pkgJson.data = true
    ∧ containsSeq "\"version\": \"1.2.3\"".data c1pkgJson.data = false :=
  ⟨by decide, by decide, by decide, by decide, by decide⟩

set_option maxRecDepth 100000 in
/-- Claim C1 (amended): for that run the generated descriptor names the
package `@hulo/linux-x86-64` and declares version `v1.2.3` — the
version argument is interpolated verbatim, with no stripping of the
leading `v` (the descriptor's version field always equals the version
string the installer was given). -/
theorem C1_version_passthrough :
    runError c1main = none
    ∧ containsSeq "\"name\": \"@hulo/linux-x86-64\"".data c1pkgJson.data = true
    ∧ containsSeq "\"version\": \"v1.2.3\"".data c1pkgJson.data = true
    ∧ (∀ (pd : PlatformData) (pn v : String), (installerPkgData pn v pd).version = v) :=
  ⟨by decide, by decide, by decide, fun _ _ _ => rfl⟩

theorem platformInfo_mem {k : String} {d : PlatformData} (h : platformInfo k = some d) :
    (k, d) ∈ platformInfoList := by
  unfold platformInfo at h
  cases hf : platformInfoList.find? (fun p => p.1 == k) with
  | none => rw [hf] at h; simp at h
  | some p =>
      rw [hf] at h
      have h2 : p.2 = d := Option.some.inj h
      have hpred := List.find?_some hf
      have hmem := List.mem_of_find?_eq_some hf
      obtain ⟨p1, p2⟩ := p
      simp only [beq_iff_eq] at hpred
      subst hpred
      subst h2
      exact hmem

/-- Claim C8: for every platform key in the static table, the rendered
package descriptor declares the operating system and CPU architecture
exactly as the table's `os` and `arch` fields for that key — the
substrings `"os": ["<os>"]` and `"cpu": ["<arch>"]` occur verbatim in
the generated descriptor, for any version string. -/
theorem C8_descriptor_os_cpu :
    ∀ (k : String) (d : PlatformData) (v : String),
      platformInfo k = some d →
      strContains (osDecl d.os) (renderPackageJson (installerPkgData k v d))
      ∧ strContains (cpuDecl d.arch) (renderPackageJson (installerPkgData k v d)) := by
  intro k d v h
  have hmem : (k, d) ∈ platformInfoList := platformInfo_mem h
  have hescAll : ∀ p ∈ platformInfoList,
      hbEscape p.2.os = p.2.os ∧ hbEscape p.2.arch = p.2.arch := by decide
  have hesc := hescAll (k, d) hmem
  constructor
  · refine ⟨pkgHead (installerPkgData k v d),
      ",\n    " ++ cpuDecl (hbEscape d.arch) ++ pkgTail, ?_⟩
    show renderPackageJson (installerPkgData k v d) = _
    unfold renderPackageJson
    have hos : (installerPkgData k v d).os = d.os := rfl
    have harch : (installerPkgData k v d).arch = d.arch := rfl
    rw [hos, harch, hesc.1]
    simp [String.append_assoc]
  · refine ⟨pkgHead (installerPkgData k v d) ++ osDecl (hbEscape d.os) ++ ",\n    ",
      pkgTail, ?_⟩
    show renderPackageJson (installerPkgData k v d) = _
    unfold renderPackageJson
    have harch : (installerPkgData k v d).arch = d.arch := rfl
    have hos : (installerPkgData k v d).os = d.os := rfl
    rw [hos, harch, hesc.2]

theorem C8_descriptor_os_cpu_witness :
    strContains (osDecl "darwin")
        (renderPackageJson (installerPkgData "darwin-arm64" "1.2.3"
          ⟨"darwin", "arm64", "Hulo compiler for macOS (Apple Silicon)",
            ["hulo", "compiler", "macos", "darwin", "arm64", "apple-silicon", "m1", "m2"]⟩))
    ∧ strContains (cpuDecl "arm64")
        (renderPackageJson (installerPkgData "darwin-arm64" "1.2.3"
          ⟨"darwin", "arm64", "Hulo compiler for macOS (Apple Silicon)",
            ["hulo", "compiler", "macos", "darwin", "arm64", "apple-silicon", "m1", "m2"]⟩)) :=
  C8_descriptor_os_cpu "darwin-arm64"
    ⟨"darwin", "arm64", "Hulo compiler for macOS (Apple Silicon)",
      ["hulo", "compiler", "macos", "darwin", "arm64", "apple-silicon", "m1", "m2"]⟩
    "1.2.3" (by decide)

/-- Let-free restatement of `stepEntry`, with the writes of a packaged
entry grouped as `artifactsFor`. -/
theorem stepEntry_eq (env : InstallEnv) (e : ChecksumEntry) :
    stepEntry env e =
      match findHuloMatch e.filename.data with
      | none => .ok .skippedFormat
      | some k =>
          match platformInfo (normalizeKey (String.mk k)) with
          | none => .ok (.skippedPlatform (String.mk k))
          | some d =>
              if e.filename ∈ env.staging then
                match relocate (.dir (extractedEntries env.extractOf e.filename))
                    (binaryNameFor (normalizeKey (String.mk k))) with
                | .error msg => .error msg
                | .ok _ =>
                    .ok (.packaged (artifactsFor (normalizeKey (String.mk k)) d env.version))
              else .ok .skippedMissing := rfl

/-- Claim C9: generated artifacts are a pure function of their inputs —
a successful installer run maps the state to the same outputs however
often it is repeated (the run leaves the manifest and the staged
archives untouched, so a second run over the same staging directory
recomputes byte-identical artifacts), and the writes of every packaged
entry are exactly `artifactsFor` of the platform's table entry and the
version string, with no other dependency. -/
theorem C9_artifact_purity :
    (∀ (args : List String) (extractOf : String → List (String × FsNode)) (m : String)
        (st : List String) (o0 : List (String × String)) (tr : List (String × StepOutcome)),
        installerMain args m st extractOf = .ok tr →
        runInstallerState args extractOf ⟨m, st, o0⟩ = ⟨m, st, traceWrites tr⟩
        ∧ runInstallerState args extractOf (runInstallerState args extractOf ⟨m, st, o0⟩)
            = ⟨m, st, traceWrites tr⟩)
    ∧ (∀ (env : InstallEnv) (e : ChecksumEntry) (w : List (String × String)),
        stepEntry env e = .ok (.packaged w) →
        ∃ k d, findHuloMatch e.filename.data = some k
          ∧ platformInfo (normalizeKey (String.mk k)) = some d
          ∧ w = artifactsFor (normalizeKey (String.mk k)) d env.version) := by
  constructor
  · intro args x m st o0 tr h
    have h1 : runInstallerState args x ⟨m, st, o0⟩ = ⟨m, st, traceWrites tr⟩ := by
      simp [runInstallerState, h]
    refine ⟨h1, ?_⟩
    rw [h1]
    simp [runInstallerState, h]
  · intro env e w h
    rw [stepEntry_eq] at h
    split at h
    · exact absurd h (by simp)
    next k hfind =>
      split at h
      · exact absurd h (by simp)
      next d hp =>
        split at h
        · split at h
          · exact absurd h (by simp)
          next t hr =>
            refine ⟨k, d, hfind, hp, ?_⟩
            have hw := Except.ok.inj h
            exact (StepOutcome.packaged.inj hw).symm
        · exact absurd h (by simp)

/-- A concrete successful installer run, used to witness claim C9. -/
def c9main : Except String (List (String × StepOutcome)) :=
  installerMain ["1.2.3"] "abc  hulo_Linux_x86_64.tar.gz" ["hulo_Linux_x86_64.tar.gz"]
    dirFirstOracle

/-- Its trace. -/
def c9trace : List (String × StepOutcome) :=
  match c9main with
  | .ok tr => tr
  | .error _ => []

set_option maxRecDepth 100000 in
theorem C9_artifact_purity_witness :
    runInstallerState ["1.2.3"] dirFirstOracle
        ⟨"abc  hulo_Linux_x86_64.tar.gz", ["hulo_Linux_x86_64.tar.gz"], []⟩
      = ⟨"abc  hulo_Linux_x86_64.tar.gz", ["hulo_Linux_x86_64.tar.gz"], traceWrites c9trace⟩
    ∧ runInstallerState ["1.2.3"] dirFirstOracle
        (runInstallerState ["1.2.3"] dirFirstOracle
          ⟨"abc  hulo_Linux_x86_64.tar.gz", ["hulo_Linux_x86_64.tar.gz"], []⟩)
      = ⟨"abc  hulo_Linux_x86_64.tar.gz", ["hulo_Linux_x86_64.tar.gz"], traceWrites c9trace⟩ :=
  C9_artifact_purity.1 ["1.2.3"] dirFirstOracle "abc  hulo_Linux_x86_64.tar.gz"
    ["hulo_Linux_x86_64.tar.gz"] [] c9trace rfl

theorem matchGroup_some (ext : List Char)
    (hext : ext = ".tar.gz".data ∨ ext = ".zip".data) :
    ∀ (key : List Char) (post acc : List Char), key ≠ [] →
      (∀ c ∈ key, regexDotChar c = true) →
      (matchGroup (key ++ ext ++ post) acc).isSome = true := by
  intro key
  induction key with
  | nil => intro post acc h; exact absurd rfl h
  | cons c key' ih =>
      intro post acc _ hdot
      have hc : regexDotChar c = true := hdot c (by simp)
      have htest : (key' ++ ext ++ post).take 7 = ".tar.gz".data
          ∨ (key' ++ ext ++ post).take 4 = ".zip".data
          ∨ key' ≠ [] := by
        cases key' with
        | nil =>
            rcases hext with h | h <;> subst h
            · left
              simp
            · right; left
              simp
        | cons _ _ => right; right; simp
      show (matchGroup (c :: (key' ++ ext ++ post)) acc).isSome = true
      by_cases hc7 : (key' ++ ext ++ post).take 7 = ".tar.gz".data
          ∨ (key' ++ ext ++ post).take 4 = ".zip".data
      · have hc7n : List.take 7 (key' ++ (ext ++ post)) = ['.', 't', 'a', 'r', '.', 'g', 'z']
            ∨ List.take 4 (key' ++ (ext ++ post)) = ['.', 'z', 'i', 'p'] := by
          simpa [List.append_assoc] using hc7
        simp [matchGroup, hc, hc7n]
      · have hk' : key' ≠ [] := by
          rcases htest with h | h | h
          · exact absurd (Or.inl h) hc7
          · exact absurd (Or.inr h) hc7
          · exact h
        simp only [matchGroup, hc, if_true, hc7, if_false]
        exact ih post (c :: acc) hk' (fun x hx => hdot x (by simp [hx]))

theorem matchFrom_some (ext : List Char)
    (hext : ext = ".tar.gz".data ∨ ext = ".zip".data)
    (key post : List Char) (hk : key ≠ [])
    (hdot : ∀ c ∈ key, regexDotChar c = true) :
    (matchFrom ("hulo_".data ++ (key ++ ext ++ post))).isSome = true := by
  unfold matchFrom
  have h5 : ("hulo_".data ++ (key ++ ext ++ post)).take 5 = "hulo_".data := by
    simp
  have hdrop : ("hulo_".data ++ (key ++ ext ++ post)).drop 5 = key ++ ext ++ post := by
    simp
  rw [if_pos h5, hdrop]
  exact matchGroup_some ext hext key post [] hk hdot

theorem findHuloMatch_of_matchFrom {l : List Char} {g : List Char}
    (h : matchFrom l = some g) : findHuloMatch l = some g := by
  cases l with
  | nil => simp [matchFrom] at h
  | cons c rest => simp [findHuloMatch, h]

theorem findHuloMatch_some_of_contains (ext : List Char)
    (hext : ext = ".tar.gz".data ∨ ext = ".zip".data) :
    ∀ (pre key post : List Char), key ≠ [] →
      (∀ c ∈ key, regexDotChar c = true) →
      (findHuloMatch (pre ++ "hulo_".data ++ (key ++ ext ++ post))).isSome = true := by
  intro pre
  induction pre with
  | nil =>
      intro key post hk hdot
      have := matchFrom_some ext hext key post hk hdot
      cases hm : matchFrom ("hulo_".data ++ (key ++ ext ++ post)) with
      | none => rw [hm] at this; simp at this
      | some g =>
          rw [List.nil_append]
          rw [findHuloMatch_of_matchFrom hm]
          rfl
  | cons c pre' ih =>
      intro key post hk hdot
      show (findHuloMatch (c :: (pre' ++ "hulo_".data ++ (key ++ ext ++ post)))).isSome = true
      cases hm : matchFrom (c :: (pre' ++ "hulo_".data ++ (key ++ ext ++ post))) with
      | some g =>
          unfold findHuloMatch
          rw [hm]
          rfl
      | none =>
          unfold findHuloMatch
          rw [hm]
          exact ih key post hk hdot

/-- Claim C10: the installer's filename test is an unanchored substring
match — any filename containing `hulo_<key>.tar.gz` or
`hulo_<key>.zip` anywhere (extra leading characters or a trailing
suffix such as `.sha256` included) passes the pattern test, with the
key taken from the leftmost, lazily-matched occurrence; and an
accepted filename that does not itself end in `.zip` or `.tar.gz` is
copied verbatim into the output directory instead of being handed to
an archive tool. -/
theorem C10_unanchored_lazy_match :
    (∀ (pre key post : List Char), key ≠ [] →
        (∀ c ∈ key, regexDotChar c = true) →
        (findHuloMatch (pre ++ "hulo_".data ++ (key ++ ".tar.gz".data ++ post))).isSome = true)
    ∧ (∀ (pre key post : List Char), key ≠ [] →
        (∀ c ∈ key, regexDotChar c = true) →
        (findHuloMatch (pre ++ "hulo_".data ++ (key ++ ".zip".data ++ post))).isSome = true)
    ∧ findHuloMatch "hulo_Linux_x86_64.tar.gz.sha256".data = some "Linux_x86_64".data
    ∧ normalizeKey "Linux_x86_64" = "linux-x86-64"
    ∧ (platformInfo "linux-x86-64").isSome = true
    ∧ findHuloMatch "hulo_a.zip.tar.gz".data = some "a".data
    ∧ (∀ (f : String) (x : String → List (String × FsNode)),
        strEnds ".zip" f = false → strEnds ".tar.gz" f = false →
        extractAction f = ExtractAction.copyVerbatim
        ∧ extractedEntries x f = [(f, FsNode.file 0)])
    ∧ extractAction "hulo_Linux_x86_64.tar.gz.sha256" = ExtractAction.copyVerbatim := by
  refine ⟨?_, ?_, by decide, by decide, by decide, by decide, ?_, by decide⟩
  · exact findHuloMatch_some_of_contains ".tar.gz".data (Or.inl rfl)
  · exact findHuloMatch_some_of_contains ".zip".data (Or.inr rfl)
  · intro f x h1 h2
    constructor
    · simp [extractAction, h1, h2]
    · simp [extractedEntries, extractAction, h1, h2]

theorem C10_unanchored_lazy_match_witness :
    (findHuloMatch ("pre-".data ++ "hulo_".data
        ++ ("Linux_x86_64".data ++ ".tar.gz".data ++ ".sha256".data))).isSome = true
    ∧ extractAction "hulo_Linux_x86_64.tar.gz.sha256" = ExtractAction.copyVerbatim
    ∧ extractedEntries dirFirstOracle "hulo_Linux_x86_64.tar.gz.sha256"
        = [("hulo_Linux_x86_64.tar.gz.sha256", FsNode.file 0)] := by
  have h1 := C10_unanchored_lazy_match.1 "pre-".data "Linux_x86_64".data ".sha256".data
    (by decide) (by decide)
  have h2 := C10_unanchored_lazy_match.2.2.2.2.2.2.1 "hulo_Linux_x86_64.tar.gz.sha256"
    dirFirstOracle (by decide) (by decide)
  exact ⟨h1, h2.1, h2.2⟩
